import Mathlib

/-!
Verification development for the bpc-data-engineering evaluation pipeline.

Shallow embedding of the evaluation engine: the result aggregator
(`src/code/pipeline/aggregation/aggregator.py`), the entity resolver
(`src/code/pipeline/parsing/entity_resolver.py`) and the response parser
(`src/code/pipeline/parsing/parser.py`).  Python floats on the values these
modules compute (ratios of small integer counts) are modelled as rationals;
Python `len` as `List.length`; Python `str` as Lean `String` restricted to
the ASCII behaviour of `strip`/`lower`/`\s` (all inputs of interest are
ASCII).
-/

/-- Python `str.isspace` / regex `\s` on ASCII: space, tab, newline,
carriage return, vertical tab, form feed. -/
def isPySpace (c : Char) : Bool :=
  c == ' ' || c == '\t' || c == '\n' || c == '\r' || c == '\x0b' || c == '\x0c'

/-- Python `str.strip()` on a character list: drop whitespace from both ends. -/
def pyStripList (l : List Char) : List Char :=
  ((l.dropWhile isPySpace).reverse.dropWhile isPySpace).reverse

/-- Python `str.strip()`. -/
def pyStrip (s : String) : String :=
  String.mk (pyStripList s.data)

/-- Python `str.lower()` (ASCII model). -/
def pyLower (s : String) : String :=
  String.mk (s.data.map Char.toLower)

/-- Length of the common prefix of two character lists. -/
def commonPrefixLen : List Char → List Char → ℕ
  | a :: as, b :: bs => if a = b then commonPrefixLen as bs + 1 else 0
  | _, _ => 0

/-- Longest matching block of two character lists, as in Python
`difflib.SequenceMatcher.find_longest_match`: the triple `(i, j, k)` with
maximal `k` such that `a[i:i+k] = b[j:j+k]`, ties broken by smallest `i`,
then smallest `j` (the scan order below). -/
def longestCommon (a b : List Char) : ℕ × ℕ × ℕ :=
  (List.range a.length).foldl
    (fun best i =>
      (List.range b.length).foldl
        (fun best j =>
          let k := commonPrefixLen (a.drop i) (b.drop j)
          if best.2.2 < k then (i, j, k) else best)
        best)
    (0, 0, 0)

/-- Total size of the matching blocks of two character lists, as summed by
`difflib.SequenceMatcher.get_matching_blocks` (Ratcliff/Obershelp: take the
longest matching block, recurse left and right of it).  `fuel` bounds the
recursion depth; `a.length + b.length` is always enough since every
recursive call strictly shrinks the combined length.  The stdlib autojunk
heuristic (for sequences of 200+ elements) is not modelled. -/
def matchTotal : ℕ → List Char → List Char → ℕ
  | 0, _, _ => 0
  | fuel + 1, a, b =>
    let lc := longestCommon a b
    if lc.2.2 = 0 then 0
    else
      matchTotal fuel (a.take lc.1) (b.take lc.2.1) + lc.2.2 +
        matchTotal fuel (a.drop (lc.1 + lc.2.2)) (b.drop (lc.2.1 + lc.2.2))

/-- Python `difflib.SequenceMatcher(None, a, b).ratio()`: `2*M / T` where `M`
is the total size of the matching blocks and `T` the combined length; `1.0`
when both sequences are empty. -/
def ratio (a b : List Char) : ℚ :=
  if a.length + b.length = 0 then 1
  else 2 * (matchTotal (a.length + b.length) a b : ℚ) / ((a.length + b.length : ℕ) : ℚ)

/-- Modelled from the spec: the predicted-relation record (`ParsedRelation`
in `pipeline/types.py`, which is not under `src/`): head and tail mention
strings, relation type, optional confidence, optional resolved ids (null
until resolution). -/
structure ParsedRelation where
  head_mention : String
  tail_mention : String
  relation_type : String
  confidence : Option ℚ := none
  head_id : Option String := none
  tail_id : Option String := none
deriving Repr, DecidableEq

/-- Modelled from the spec: a registry entry of the corpus-wide entity map
(`GlobalEntity` in `pipeline/types.py`, not under `src/`): id, optional
type, optional canonical name, common mentions. -/
structure GlobalEntity where
  id : String
  type : Option String := none
  canonical_name : Option String := none
  common_mentions : List String := []
deriving Repr, DecidableEq

/-- Modelled from the spec: the corpus-wide entity registry
(`pipeline/data/entity_map.py`, not under `src/`).  Only its lookup is
needed here, so it is modelled as an abstract lookup function
`find_entity_by_mention mention entity_type fuzzy`. -/
structure GlobalEntityMap where
  find_entity_by_mention : String → Option String → Bool → List GlobalEntity

/-- Embedding of `EntityResolver` (src/code/pipeline/parsing/entity_resolver.py):
holds an optional entity map. -/
structure EntityResolver where
  entity_map : Option GlobalEntityMap

/-- Python `max(x :: l, key := f)`: first element of maximal key (a later
element replaces the current best only when its key is strictly greater). -/
def pyMax (f : α → ℚ) (x : α) : List α → α
  | [] => x
  | y :: ys => pyMax f (if f x < f y then y else x) ys

namespace EntityResolver

/-- Embedding of `EntityResolver._similarity_score`
(src/code/pipeline/parsing/entity_resolver.py lines 74-100): maximum of the
`SequenceMatcher` ratio of the lowercased, stripped mention against the
lowercased canonical name (`0.0` when the canonical name is falsy, i.e.
`None` or empty) and against each of the first five common mentions
(`0.0` when there are none). -/
def similarity_score (mention_text : String) (entity : GlobalEntity) : ℚ :=
  let mention_lower := pyStrip (pyLower mention_text)
  let canon_sim : ℚ :=
    match entity.canonical_name with
    | some cn => if cn = "" then 0 else ratio mention_lower.data (pyLower cn).data
    | none => 0
  let common_sims :=
    (entity.common_mentions.take 5).map fun cm => ratio mention_lower.data (pyLower cm).data
  let max_common_sim : ℚ :=
    match common_sims with
    | [] => 0
    | c :: cs => cs.foldl max c
  max canon_sim max_common_sim

/-- Embedding of `EntityResolver.resolve_mention`
(src/code/pipeline/parsing/entity_resolver.py lines 23-72): no map or
blank (stripped-empty) mention resolves to `none`; otherwise exact lookup
first (first match wins), then fuzzy lookup picking the candidate of
highest similarity (Python `max`, first of the maximal ones), else `none`. -/
def resolve_mention (resolver : EntityResolver) (mention_text : String)
    (entity_type : Option String) : Option String :=
  match resolver.entity_map with
  | none => none
  | some m =>
    let mt := pyStrip mention_text
    if mt = "" then none
    else
      match m.find_entity_by_mention mt entity_type false with
      | e :: _ => some e.id
      | [] =>
        match m.find_entity_by_mention mt entity_type true with
        | [] => none
        | e :: es => some (pyMax (fun x => similarity_score mt x) e es).id

/-- Embedding of `EntityResolver.resolve_relation`
(src/code/pipeline/parsing/entity_resolver.py lines 102-127): resolve head
and tail mentions independently (no entity-type hint is passed). -/
def resolve_relation (resolver : EntityResolver) (relation : ParsedRelation) :
    Option String × Option String :=
  (resolve_mention resolver relation.head_mention none,
   resolve_mention resolver relation.tail_mention none)

/-- Embedding of `EntityResolver.resolve_relations`
(src/code/pipeline/parsing/entity_resolver.py lines 129-151): each relation
of the list, in order, with its `head_id` and `tail_id` fields set to the
resolved ids (the Python loop mutates each relation in place and appends
it; the functional model maps the field update over the list). -/
def resolve_relations (resolver : EntityResolver) (relations : List ParsedRelation) :
    List ParsedRelation :=
  relations.map fun relation =>
    let ids := resolve_relation resolver relation
    { relation with head_id := ids.1, tail_id := ids.2 }

end EntityResolver

/-- Modelled from the spec: the per-document `EvaluationResult` record
(`pipeline/types.py`, not under `src/`), with exactly the fields
`ResultAggregator.aggregate` reads: the classified relation sets and the
per-document metric values (floats as rationals). -/
structure EvaluationResult where
  precision : ℚ
  «recall» : ℚ
  f1_score : ℚ
  true_positives : List ParsedRelation
  false_positives : List ParsedRelation
  false_negatives : List ParsedRelation
  partial_matches : List ParsedRelation
  exact_match_rate : ℚ
  omission_rate : ℚ
  hallucination_rate : ℚ
  redundancy_rate : ℚ
  graph_edit_distance : ℚ
  bertscore : ℚ
  fuzzy_precision : ℚ
  fuzzy_recall : ℚ
  fuzzy_f1 : ℚ
deriving Repr, DecidableEq

/-- Modelled from the spec: the per-technique `AggregateResults` record
(`pipeline/types.py`, not under `src/`); every numeric field defaults to
zero, matching the zeroed record the aggregator returns on empty input. -/
structure AggregateResults where
  technique_name : String
  macro_precision : ℚ := 0
  macro_recall : ℚ := 0
  macro_f1 : ℚ := 0
  micro_precision : ℚ := 0
  micro_recall : ℚ := 0
  micro_f1 : ℚ := 0
  avg_exact_match_rate : ℚ := 0
  avg_omission_rate : ℚ := 0
  avg_hallucination_rate : ℚ := 0
  avg_redundancy_rate : ℚ := 0
  avg_graph_edit_distance : ℚ := 0
  avg_bertscore : ℚ := 0
  total_partial_matches : ℕ := 0
  avg_partial_matches : ℚ := 0
  fuzzy_micro_precision : ℚ := 0
  fuzzy_micro_recall : ℚ := 0
  fuzzy_micro_f1 : ℚ := 0
  fuzzy_macro_precision : ℚ := 0
  fuzzy_macro_recall : ℚ := 0
  fuzzy_macro_f1 : ℚ := 0
  per_document_results : List EvaluationResult := []
deriving Repr, DecidableEq

namespace ResultAggregator

/-- Embedding of `ResultAggregator.aggregate`
(src/code/pipeline/aggregation/aggregator.py): empty input yields the
zeroed record tagged with the technique name; otherwise macro metrics are
means of the per-document metrics, micro metrics are recomputed from the
summed confusion counts with zero-guards, and fuzzy micro metrics use
`fuzzy_tp = ΣTP + ΣPM` and `fuzzy_fp = ΣFP - ΣPM` (exact integer
subtraction, as in Python, so possibly negative). -/
def aggregate (eval_results : List EvaluationResult) (technique_name : String) :
    AggregateResults :=
  match eval_results with
  | [] =>
    { technique_name := technique_name, per_document_results := eval_results }
  | _ :: _ =>
    let n : ℚ := (eval_results.length : ℚ)
    let macro_precision := (eval_results.map fun r => r.precision).sum / n
    let macro_recall := (eval_results.map fun r => r.recall).sum / n
    let macro_f1 := (eval_results.map fun r => r.f1_score).sum / n
    let total_tp : ℕ := (eval_results.map fun r => r.true_positives.length).sum
    let total_fp : ℕ := (eval_results.map fun r => r.false_positives.length).sum
    let total_fn : ℕ := (eval_results.map fun r => r.false_negatives.length).sum
    let micro_precision : ℚ :=
      if 0 < total_tp + total_fp then (total_tp : ℚ) / ((total_tp : ℚ) + (total_fp : ℚ)) else 0
    let micro_recall : ℚ :=
      if 0 < total_tp + total_fn then (total_tp : ℚ) / ((total_tp : ℚ) + (total_fn : ℚ)) else 0
    let micro_f1 : ℚ :=
      if 0 < micro_precision + micro_recall then
        2 * (micro_precision * micro_recall) / (micro_precision + micro_recall)
      else 0
    let avg_exact_match_rate := (eval_results.map fun r => r.exact_match_rate).sum / n
    let avg_omission_rate := (eval_results.map fun r => r.omission_rate).sum / n
    let avg_hallucination_rate := (eval_results.map fun r => r.hallucination_rate).sum / n
    let avg_redundancy_rate := (eval_results.map fun r => r.redundancy_rate).sum / n
    let avg_graph_edit_distance := (eval_results.map fun r => r.graph_edit_distance).sum / n
    let avg_bertscore := (eval_results.map fun r => r.bertscore).sum / n
    let total_partial_matches : ℕ := (eval_results.map fun r => r.partial_matches.length).sum
    let avg_partial_matches : ℚ := if 0 < eval_results.length then (total_partial_matches : ℚ) / n else 0
    let fuzzy_macro_precision := (eval_results.map fun r => r.fuzzy_precision).sum / n
    let fuzzy_macro_recall := (eval_results.map fun r => r.fuzzy_recall).sum / n
    let fuzzy_macro_f1 := (eval_results.map fun r => r.fuzzy_f1).sum / n
    let fuzzy_tp : ℚ := (total_tp : ℚ) + (total_partial_matches : ℚ)
    let fuzzy_fp : ℚ := (total_fp : ℚ) - (total_partial_matches : ℚ)
    let fuzzy_micro_precision : ℚ :=
      if 0 < fuzzy_tp + fuzzy_fp then fuzzy_tp / (fuzzy_tp + fuzzy_fp) else 0
    let fuzzy_micro_recall : ℚ :=
      if 0 < fuzzy_tp + (total_fn : ℚ) then fuzzy_tp / (fuzzy_tp + (total_fn : ℚ)) else 0
    let fuzzy_micro_f1 : ℚ :=
      if 0 < fuzzy_micro_precision + fuzzy_micro_recall then
        2 * (fuzzy_micro_precision * fuzzy_micro_recall) /
          (fuzzy_micro_precision + fuzzy_micro_recall)
      else 0
    { technique_name := technique_name
      macro_precision := macro_precision
      macro_recall := macro_recall
      macro_f1 := macro_f1
      micro_precision := micro_precision
      micro_recall := micro_recall
      micro_f1 := micro_f1
      avg_exact_match_rate := avg_exact_match_rate
      avg_omission_rate := avg_omission_rate
      avg_hallucination_rate := avg_hallucination_rate
      avg_redundancy_rate := avg_redundancy_rate
      avg_graph_edit_distance := avg_graph_edit_distance
      avg_bertscore := avg_bertscore
      total_partial_matches := total_partial_matches
      avg_partial_matches := avg_partial_matches
      fuzzy_micro_precision := fuzzy_micro_precision
      fuzzy_micro_recall := fuzzy_micro_recall
      fuzzy_micro_f1 := fuzzy_micro_f1
      fuzzy_macro_precision := fuzzy_macro_precision
      fuzzy_macro_recall := fuzzy_macro_recall
      fuzzy_macro_f1 := fuzzy_macro_f1
      per_document_results := eval_results }

end ResultAggregator

/-- Sum of true-positive counts across documents. -/
def totalTP (l : List EvaluationResult) : ℕ :=
  (l.map fun r => r.true_positives.length).sum

/-- Sum of false-positive counts across documents. -/
def totalFP (l : List EvaluationResult) : ℕ :=
  (l.map fun r => r.false_positives.length).sum

/-- Sum of false-negative counts across documents. -/
def totalFN (l : List EvaluationResult) : ℕ :=
  (l.map fun r => r.false_negatives.length).sum

/-- Sum of partial-match counts across documents. -/
def totalPM (l : List EvaluationResult) : ℕ :=
  (l.map fun r => r.partial_matches.length).sum

/-- A JSON value, as returned by Python `json.loads`. -/
inductive JValue where
  | null : JValue
  | bool : Bool → JValue
  | num : ℚ → JValue
  | str : String → JValue
  | arr : List JValue → JValue
  | obj : List (String × JValue) → JValue
deriving Repr

/-- Python `dict` lookup on a parsed JSON object (keys are unique after
`json.loads`, so the first hit is the value). -/
def jlookup (kvs : List (String × JValue)) (k : String) : Option JValue :=
  (kvs.find? fun p => p.1 == k).map fun p => p.2

/-- Python `for x in v`: iterating a list yields its elements, a dict its
keys, a string its characters; any other JSON value raises `TypeError`
(modelled as `none`). -/
def pyIter : JValue → Option (List JValue)
  | JValue.arr xs => some xs
  | JValue.obj kvs => some (kvs.map fun kv => JValue.str kv.1)
  | JValue.str s => some (s.data.map fun c => JValue.str (String.mk [c]))
  | _ => none

/-- The value a JSON object yields for `rel_data.get(key, "")`. -/
def jgetD (kvs : List (String × JValue)) (k : String) : JValue :=
  (jlookup kvs k).getD (JValue.str "")

/-- Python `.strip()` is only defined on `str` values; anything else raises
`AttributeError` (modelled as `none`). -/
def asStr : JValue → Option String
  | JValue.str s => some s
  | _ => none

namespace ResponseParser

/-- One step of the JSON relation loop in `ResponseParser.parse`
(src/code/pipeline/parsing/parser.py lines 57-67): a non-dict element is
skipped (`Except.ok none`); a dict whose `head_mention`, `tail_mention` or
`relation_type` value is not a string raises when `.strip()` is called
(`Except.error ()`); otherwise the relation is built from the stripped
fields and kept only when all three are non-empty (Python truthiness).
A non-numeric `confidence` value is modelled as `none`. -/
def buildRelation (rel_data : JValue) : Except Unit (Option ParsedRelation) :=
  match rel_data with
  | JValue.obj kvs =>
    match asStr (jgetD kvs "head_mention"), asStr (jgetD kvs "tail_mention"),
        asStr (jgetD kvs "relation_type") with
    | some h, some t, some rt =>
      let conf : Option ℚ :=
        match jlookup kvs "confidence" with
        | some (JValue.num q) => some q
        | _ => none
      let relation : ParsedRelation :=
        { head_mention := pyStrip h, tail_mention := pyStrip t,
          relation_type := pyStrip rt, confidence := conf }
      Except.ok
        (if relation.head_mention ≠ "" ∧ relation.tail_mention ≠ "" ∧
            relation.relation_type ≠ "" then some relation else none)
    | _, _, _ => Except.error ()
  | _ => Except.ok none

/-- The JSON relation loop of `ResponseParser.parse`: relations appended
before an exception are kept (the `try` block catches it after the loop
aborts); the Boolean records whether a parsing error was appended. -/
def relationLoop : List JValue → List ParsedRelation × Bool
  | [] => ([], false)
  | d :: ds =>
    match buildRelation d with
    | Except.error _ => ([], true)
    | Except.ok none => relationLoop ds
    | Except.ok (some relation) =>
      let rest := relationLoop ds
      (relation :: rest.1, rest.2)

/-- The normalisation step of the JSON branch of `ResponseParser.parse`
(src/code/pipeline/parsing/parser.py lines 50-55): a dict with a
`relations` key is replaced by that value (whatever it is); any other
non-list value is wrapped in a singleton list. -/
def relationsData (json_data : JValue) : JValue :=
  match json_data with
  | JValue.obj kvs =>
    match jlookup kvs "relations" with
    | some v => v
    | none => JValue.arr [json_data]
  | JValue.arr xs => JValue.arr xs
  | other => JValue.arr [other]

/-- The JSON branch of `ResponseParser.parse`
(src/code/pipeline/parsing/parser.py lines 49-74): the relation loop runs
over the Python iteration of the normalised relation data (a non-iterable
raises `TypeError`, caught as a parsing error with no relations). -/
def processJson (json_data : JValue) : List ParsedRelation × Bool :=
  match pyIter (relationsData json_data) with
  | none => ([], true)
  | some items => relationLoop items

/-- Characters excluded from the first two capture groups of the text-format
regex `([^->:]+)\s*->\s*([^->:]+)\s*:\s*([^\n]+)`. -/
def notDelim (c : Char) : Bool :=
  !(c == '-' || c == '>' || c == ':')

/-- Characters allowed in the third capture group (`[^\n]`). -/
def notNl (c : Char) : Bool :=
  c != '\n'

/-- All ways a greedy character-class quantifier can split `cs` into a
consumed prefix (every character satisfying `p`, at least `minLen` of them)
and the rest, longest prefix first — the backtracking order of the regex
engine. -/
def greedySplits (p : Char → Bool) (minLen : ℕ) (cs : List Char) :
    List (List Char × List Char) :=
  let r := (cs.takeWhile p).length
  (List.range (r + 1 - minLen)).map fun d => (cs.take (r - d), cs.drop (r - d))

/-- Match of the text-format regex `([^->:]+)\s*->\s*([^->:]+)\s*:\s*([^\n]+)`
anchored at the start of `cs`, with Python's leftmost-greedy backtracking
(each quantifier longest first, rightmost quantifier backtracks first):
the three raw capture groups and the remainder after the match. -/
def matchRelAt (cs : List Char) : Option ((String × String × String) × List Char) :=
  (greedySplits notDelim 1 cs).findSome? fun g1 =>
    (greedySplits isPySpace 0 g1.2).findSome? fun s1 =>
      match s1.2 with
      | '-' :: '>' :: rest3 =>
        (greedySplits isPySpace 0 rest3).findSome? fun s2 =>
          (greedySplits notDelim 1 s2.2).findSome? fun g2 =>
            (greedySplits isPySpace 0 g2.2).findSome? fun s3 =>
              match s3.2 with
              | ':' :: rest7 =>
                (greedySplits isPySpace 0 rest7).findSome? fun s4 =>
                  let g3 := s4.2.takeWhile notNl
                  if g3.length = 0 then none
                  else
                    some ((String.mk g1.1, String.mk g2.1, String.mk g3),
                      s4.2.drop g3.length)
              | _ => none
      | _ => none

/-- Python `re.findall` scanning for the text-format pattern: try a match at
the current position; on success record the groups and continue after the
match, on failure advance one character.  `fuel` bounds the scan;
`cs.length + 1` always suffices (every step strictly shortens `cs`). -/
def findallRel : ℕ → List Char → List (String × String × String)
  | 0, _ => []
  | fuel + 1, cs =>
    match matchRelAt cs with
    | some (g, rest) => g :: findallRel fuel rest
    | none =>
      match cs with
      | [] => []
      | _ :: cs2 => findallRel fuel cs2

/-- Embedding of `ResponseParser._parse_text_format`
(src/code/pipeline/parsing/parser.py lines 167-191): every regex match
becomes a relation with the three stripped capture groups and no
confidence. -/
def parseTextFormat (text : String) : List ParsedRelation :=
  (findallRel (text.data.length + 1) text.data).map fun g =>
    { head_mention := pyStrip g.1, tail_mention := pyStrip g.2.1,
      relation_type := pyStrip g.2.2 }

/-- Embedding of `ResponseParser.parse`
(src/code/pipeline/parsing/parser.py lines 26-133), modelling the
`relations` field of the returned `ParsedRelations` (the error-message
bookkeeping and logging never alter it).  `json_data` stands for the result
of `self._extract_json(response)` (Python `json.loads` is not embedded):
`some` takes the JSON branch, `none` the text-format fallback.  When an
entity resolver is configured and relations were parsed, they are resolved
in place. -/
def parse (entity_resolver : Option EntityResolver) (json_data : Option JValue)
    (response : String) : List ParsedRelation :=
  let relations : List ParsedRelation :=
    match json_data with
    | some d => (processJson d).1
    | none => parseTextFormat response
  match entity_resolver with
  | some r => if relations.isEmpty then relations else r.resolve_relations relations
  | none => relations

end ResponseParser

/-- A zero-guarded ratio `a / (a + b)` of non-negative numbers lies in `[0, 1]`. -/
lemma guarded_ratio_mem_unit (a b : ℚ) (ha : 0 ≤ a) (hb : 0 ≤ b) :
    0 ≤ (if 0 < a + b then a / (a + b) else 0)
    ∧ (if 0 < a + b then a / (a + b) else 0) ≤ 1 := by
  split
  · rename_i h
    refine ⟨div_nonneg ha h.le, ?_⟩
    rw [div_le_one h]
    linarith
  · exact ⟨le_refl 0, zero_le_one⟩

/-- The zero-guarded harmonic mean of two numbers in `[0, 1]` lies in `[0, 1]`. -/
lemma guarded_harmonic_mem_unit (p q : ℚ) (hp0 : 0 ≤ p) (hp1 : p ≤ 1)
    (hq0 : 0 ≤ q) (hq1 : q ≤ 1) :
    0 ≤ (if 0 < p + q then 2 * (p * q) / (p + q) else 0)
    ∧ (if 0 < p + q then 2 * (p * q) / (p + q) else 0) ≤ 1 := by
  split
  · rename_i h
    refine ⟨div_nonneg (by positivity) h.le, ?_⟩
    rw [div_le_one h]
    nlinarith
  · exact ⟨le_refl 0, zero_le_one⟩

/-- When every document has at most as many partial matches as false
positives, the summed partial-match count is at most the summed
false-positive count. -/
lemma totalPM_le_totalFP (l : List EvaluationResult)
    (hinv : ∀ r ∈ l, r.partial_matches.length ≤ r.false_positives.length) :
    totalPM l ≤ totalFP l :=
  List.sum_le_sum hinv

/-- The relation used in the concrete aggregation examples. -/
def relAB : ParsedRelation :=
  { head_mention := "A", tail_mention := "B", relation_type := "Association" }

/-- Concrete document result: recall `1.0`, one true positive, no false
negatives. -/
def docOne : EvaluationResult :=
  { precision := 1, «recall» := 1, f1_score := 1,
    true_positives := [relAB], false_positives := [], false_negatives := [],
    partial_matches := [],
    exact_match_rate := 0, omission_rate := 0, hallucination_rate := 0,
    redundancy_rate := 0, graph_edit_distance := 0, bertscore := 0,
    fuzzy_precision := 0, fuzzy_recall := 0, fuzzy_f1 := 0 }

/-- Concrete document result: recall `0.1`, one true positive, nine false
negatives. -/
def docTwo : EvaluationResult :=
  { precision := 1, «recall» := 1/10, f1_score := 0,
    true_positives := [relAB], false_positives := [],
    false_negatives := List.replicate 9 relAB,
    partial_matches := [],
    exact_match_rate := 0, omission_rate := 0, hallucination_rate := 0,
    redundancy_rate := 0, graph_edit_distance := 0, bertscore := 0,
    fuzzy_precision := 0, fuzzy_recall := 0, fuzzy_f1 := 0 }

/-- C7: on the two-document input where document 1 has recall `1.0` with one
true positive and no false negatives and document 2 has recall `0.1` with
one true positive and nine false negatives, `ResultAggregator.aggregate`
returns macro recall `(1.0 + 0.1) / 2 = 0.55` and micro recall `2/11`, and
the two differ. -/
theorem aggregate_macro_micro_recall_diverge :
    (ResultAggregator.aggregate [docOne, docTwo] "technique").macro_recall = 11/20
    ∧ (ResultAggregator.aggregate [docOne, docTwo] "technique").micro_recall = 2/11
    ∧ (ResultAggregator.aggregate [docOne, docTwo] "technique").macro_recall ≠
        (ResultAggregator.aggregate [docOne, docTwo] "technique").micro_recall := by
  refine ⟨?_, ?_, ?_⟩ <;>
    norm_num [ResultAggregator.aggregate, docOne, docTwo, relAB, totalTP, totalFN]

/-- C6: on non-empty input, the micro precision and recall returned by
`ResultAggregator.aggregate` are the zero-guarded ratios of the summed
confusion counts, and the returned micro F1 is exactly their zero-guarded
harmonic mean `2*p*q/(p+q)` — every quotient defined to be `0` when its
denominator is `0`, so no division by zero occurs. -/
theorem aggregate_micro_f1_harmonic (eval_results : List EvaluationResult)
    (technique_name : String) (hne : eval_results ≠ []) :
    (ResultAggregator.aggregate eval_results technique_name).micro_precision =
      (if 0 < totalTP eval_results + totalFP eval_results then
        (totalTP eval_results : ℚ) / ((totalTP eval_results : ℚ) + (totalFP eval_results : ℚ))
      else 0)
    ∧ (ResultAggregator.aggregate eval_results technique_name).micro_recall =
      (if 0 < totalTP eval_results + totalFN eval_results then
        (totalTP eval_results : ℚ) / ((totalTP eval_results : ℚ) + (totalFN eval_results : ℚ))
      else 0)
    ∧ (ResultAggregator.aggregate eval_results technique_name).micro_f1 =
      (if 0 < (ResultAggregator.aggregate eval_results technique_name).micro_precision +
          (ResultAggregator.aggregate eval_results technique_name).micro_recall then
        2 * ((ResultAggregator.aggregate eval_results technique_name).micro_precision *
            (ResultAggregator.aggregate eval_results technique_name).micro_recall) /
          ((ResultAggregator.aggregate eval_results technique_name).micro_precision +
            (ResultAggregator.aggregate eval_results technique_name).micro_recall)
      else 0) := by
  obtain ⟨x, xs, rfl⟩ := List.exists_cons_of_ne_nil hne
  exact ⟨rfl, rfl, rfl⟩

/-- C6 witness: the guarded formulas instantiated on the concrete
one-document list `[docOne]`. -/
theorem aggregate_micro_f1_harmonic_witness :
    (ResultAggregator.aggregate [docOne] "t").micro_precision =
      (if 0 < totalTP [docOne] + totalFP [docOne] then
        (totalTP [docOne] : ℚ) / ((totalTP [docOne] : ℚ) + (totalFP [docOne] : ℚ))
      else 0)
    ∧ (ResultAggregator.aggregate [docOne] "t").micro_recall =
      (if 0 < totalTP [docOne] + totalFN [docOne] then
        (totalTP [docOne] : ℚ) / ((totalTP [docOne] : ℚ) + (totalFN [docOne] : ℚ))
      else 0)
    ∧ (ResultAggregator.aggregate [docOne] "t").micro_f1 =
      (if 0 < (ResultAggregator.aggregate [docOne] "t").micro_precision +
          (ResultAggregator.aggregate [docOne] "t").micro_recall then
        2 * ((ResultAggregator.aggregate [docOne] "t").micro_precision *
            (ResultAggregator.aggregate [docOne] "t").micro_recall) /
          ((ResultAggregator.aggregate [docOne] "t").micro_precision +
            (ResultAggregator.aggregate [docOne] "t").micro_recall)
      else 0) :=
  aggregate_micro_f1_harmonic [docOne] "t" (List.cons_ne_nil docOne [])

/-- C1: on non-empty input, `ResultAggregator.aggregate` computes the fuzzy
micro counts as `fuzzy_TP = ΣTP + ΣPM`, `fuzzy_FP = ΣFP - ΣPM` and
`fuzzy_FN = ΣFN` (visible through the returned zero-guarded fuzzy micro
precision and recall), and whenever every document has at most as many
partial matches as false positives, `fuzzy_FP` is non-negative and the
fuzzy micro precision, recall and F1 all lie in `[0, 1]`. -/
theorem aggregate_fuzzy_micro_spec (eval_results : List EvaluationResult)
    (technique_name : String) (hne : eval_results ≠ [])
    (hinv : ∀ r ∈ eval_results, r.partial_matches.length ≤ r.false_positives.length) :
    (ResultAggregator.aggregate eval_results technique_name).fuzzy_micro_precision =
      (if 0 < ((totalTP eval_results : ℚ) + (totalPM eval_results : ℚ)) +
          ((totalFP eval_results : ℚ) - (totalPM eval_results : ℚ)) then
        ((totalTP eval_results : ℚ) + (totalPM eval_results : ℚ)) /
          (((totalTP eval_results : ℚ) + (totalPM eval_results : ℚ)) +
            ((totalFP eval_results : ℚ) - (totalPM eval_results : ℚ)))
      else 0)
    ∧ (ResultAggregator.aggregate eval_results technique_name).fuzzy_micro_recall =
      (if 0 < ((totalTP eval_results : ℚ) + (totalPM eval_results : ℚ)) +
          (totalFN eval_results : ℚ) then
        ((totalTP eval_results : ℚ) + (totalPM eval_results : ℚ)) /
          (((totalTP eval_results : ℚ) + (totalPM eval_results : ℚ)) +
            (totalFN eval_results : ℚ))
      else 0)
    ∧ 0 ≤ (totalFP eval_results : ℚ) - (totalPM eval_results : ℚ)
    ∧ (0 ≤ (ResultAggregator.aggregate eval_results technique_name).fuzzy_micro_precision
        ∧ (ResultAggregator.aggregate eval_results technique_name).fuzzy_micro_precision ≤ 1)
    ∧ (0 ≤ (ResultAggregator.aggregate eval_results technique_name).fuzzy_micro_recall
        ∧ (ResultAggregator.aggregate eval_results technique_name).fuzzy_micro_recall ≤ 1)
    ∧ (0 ≤ (ResultAggregator.aggregate eval_results technique_name).fuzzy_micro_f1
        ∧ (ResultAggregator.aggregate eval_results technique_name).fuzzy_micro_f1 ≤ 1) := by
  obtain ⟨x, xs, rfl⟩ := List.exists_cons_of_ne_nil hne
  have hcast : (totalPM (x :: xs) : ℚ) ≤ (totalFP (x :: xs) : ℚ) := by
    exact_mod_cast totalPM_le_totalFP (x :: xs) hinv
  have hffp : (0 : ℚ) ≤ (totalFP (x :: xs) : ℚ) - (totalPM (x :: xs) : ℚ) := by linarith
  have hp := guarded_ratio_mem_unit
    ((totalTP (x :: xs) : ℚ) + (totalPM (x :: xs) : ℚ))
    ((totalFP (x :: xs) : ℚ) - (totalPM (x :: xs) : ℚ)) (by positivity) hffp
  have hr := guarded_ratio_mem_unit
    ((totalTP (x :: xs) : ℚ) + (totalPM (x :: xs) : ℚ))
    ((totalFN (x :: xs)) : ℚ) (by positivity) (by positivity)
  have e1 : (ResultAggregator.aggregate (x :: xs) technique_name).fuzzy_micro_precision =
      (if 0 < ((totalTP (x :: xs) : ℚ) + (totalPM (x :: xs) : ℚ)) +
          ((totalFP (x :: xs) : ℚ) - (totalPM (x :: xs) : ℚ)) then
        ((totalTP (x :: xs) : ℚ) + (totalPM (x :: xs) : ℚ)) /
          (((totalTP (x :: xs) : ℚ) + (totalPM (x :: xs) : ℚ)) +
            ((totalFP (x :: xs) : ℚ) - (totalPM (x :: xs) : ℚ)))
      else 0) := rfl
  have e2 : (ResultAggregator.aggregate (x :: xs) technique_name).fuzzy_micro_recall =
      (if 0 < ((totalTP (x :: xs) : ℚ) + (totalPM (x :: xs) : ℚ)) +
          (totalFN (x :: xs) : ℚ) then
        ((totalTP (x :: xs) : ℚ) + (totalPM (x :: xs) : ℚ)) /
          (((totalTP (x :: xs) : ℚ) + (totalPM (x :: xs) : ℚ)) +
            (totalFN (x :: xs) : ℚ))
      else 0) := rfl
  have e3 : (ResultAggregator.aggregate (x :: xs) technique_name).fuzzy_micro_f1 =
      (if 0 < (ResultAggregator.aggregate (x :: xs) technique_name).fuzzy_micro_precision +
          (ResultAggregator.aggregate (x :: xs) technique_name).fuzzy_micro_recall then
        2 * ((ResultAggregator.aggregate (x :: xs) technique_name).fuzzy_micro_precision *
            (ResultAggregator.aggregate (x :: xs) technique_name).fuzzy_micro_recall) /
          ((ResultAggregator.aggregate (x :: xs) technique_name).fuzzy_micro_precision +
            (ResultAggregator.aggregate (x :: xs) technique_name).fuzzy_micro_recall)
      else 0) := rfl
  have hpA : 0 ≤ (ResultAggregator.aggregate (x :: xs) technique_name).fuzzy_micro_precision
      ∧ (ResultAggregator.aggregate (x :: xs) technique_name).fuzzy_micro_precision ≤ 1 := by
    rw [e1]; exact hp
  have hrA : 0 ≤ (ResultAggregator.aggregate (x :: xs) technique_name).fuzzy_micro_recall
      ∧ (ResultAggregator.aggregate (x :: xs) technique_name).fuzzy_micro_recall ≤ 1 := by
    rw [e2]; exact hr
  have hfA : 0 ≤ (ResultAggregator.aggregate (x :: xs) technique_name).fuzzy_micro_f1
      ∧ (ResultAggregator.aggregate (x :: xs) technique_name).fuzzy_micro_f1 ≤ 1 := by
    rw [e3]
    exact guarded_harmonic_mem_unit _ _ hpA.1 hpA.2 hrA.1 hrA.2
  exact ⟨e1, e2, hffp, hpA, hrA, hfA⟩

/-- C1 witness: the fuzzy micro guarantees instantiated on the concrete
one-document list `[docOne]`, whose single document has no partial matches
and no false positives. -/
theorem aggregate_fuzzy_micro_spec_witness :
    (∀ r ∈ [docOne], r.partial_matches.length ≤ r.false_positives.length)
    ∧ (0 ≤ (ResultAggregator.aggregate [docOne] "t").fuzzy_micro_f1
        ∧ (ResultAggregator.aggregate [docOne] "t").fuzzy_micro_f1 ≤ 1) :=
  ⟨by decide,
    (aggregate_fuzzy_micro_spec [docOne] "t" (List.cons_ne_nil docOne [])
      (by decide)).2.2.2.2.2⟩

/-- C3: `EntityResolver.resolve_mention` (with a map configured) trims the
mention and returns `none` on a blank mention; otherwise it looks the
trimmed mention up exactly first, returning the first exact match's id, and
returns `none` when both the exact and the fuzzy lookup come back empty
(the fuzzy lookup is consulted only on an empty exact result: with a
non-empty exact result the answer is fixed whatever the fuzzy lookup would
say). -/
theorem resolve_mention_lookup_order (m : GlobalEntityMap) (s : String)
    (et : Option String) :
    (pyStrip s = "" → EntityResolver.resolve_mention ⟨some m⟩ s et = none)
    ∧ (pyStrip s ≠ "" → ∀ e es, m.find_entity_by_mention (pyStrip s) et false = e :: es →
        EntityResolver.resolve_mention ⟨some m⟩ s et = some e.id)
    ∧ (pyStrip s ≠ "" → m.find_entity_by_mention (pyStrip s) et false = [] →
        m.find_entity_by_mention (pyStrip s) et true = [] →
        EntityResolver.resolve_mention ⟨some m⟩ s et = none) := by
  refine ⟨?_, ?_, ?_⟩
  · intro h
    simp [EntityResolver.resolve_mention, h]
  · intro h e es hex
    simp [EntityResolver.resolve_mention, h, hex]
  · intro h hex hfz
    simp [EntityResolver.resolve_mention, h, hex, hfz]

/-- C10: when the exact lookup returns two or more entities,
`EntityResolver.resolve_mention` answers with the id of the first one,
independent of the remaining matches and of any similarity score. -/
theorem resolve_mention_exact_first_of_many (m : GlobalEntityMap) (s : String)
    (et : Option String) (e1 e2 : GlobalEntity) (es : List GlobalEntity)
    (h1 : pyStrip s ≠ "")
    (h2 : m.find_entity_by_mention (pyStrip s) et false = e1 :: e2 :: es) :
    EntityResolver.resolve_mention ⟨some m⟩ s et = some e1.id := by
  simp [EntityResolver.resolve_mention, h1, h2]

/-- A concrete registry entry for the resolver witnesses. -/
def entOne : GlobalEntity :=
  { id := "E1", canonical_name := some "gene" }

/-- A second concrete registry entry for the resolver witnesses. -/
def entTwo : GlobalEntity :=
  { id := "E2", canonical_name := some "gene" }

/-- A concrete entity map whose exact lookup always returns two entities. -/
def mapExact : GlobalEntityMap :=
  ⟨fun _ _ fuzzy => if fuzzy then [] else [entOne, entTwo]⟩

/-- A concrete entity map whose fuzzy lookup always returns two entities and
whose exact lookup is empty. -/
def mapFuzzy : GlobalEntityMap :=
  ⟨fun _ _ fuzzy => if fuzzy then [entOne, entTwo] else []⟩

/-- C10 witness: on the concrete two-match exact lookup, the first id comes
back. -/
theorem resolve_mention_exact_first_of_many_witness :
    EntityResolver.resolve_mention ⟨some mapExact⟩ "gene" none = some entOne.id :=
  resolve_mention_exact_first_of_many mapExact "gene" none entOne entTwo []
    (by decide) rfl

/-- Python `max` with a key function returns an element of the list that
splits it into earlier elements of strictly smaller key, the maximum, and
the rest: no element beats it and every element before it is strictly
below it. -/
lemma pyMax_decomp (f : α → ℚ) (l : List α) : ∀ x : α, ∃ l₁ l₂,
    x :: l = l₁ ++ pyMax f x l :: l₂
    ∧ (∀ y ∈ x :: l, f y ≤ f (pyMax f x l))
    ∧ ∀ y ∈ l₁, f y < f (pyMax f x l) := by
  induction l with
  | nil =>
    intro x
    exact ⟨[], [], rfl, by simp [pyMax], by simp⟩
  | cons y ys IH =>
    intro x
    obtain ⟨l₁, l₂, heq, hmax, hstrict⟩ := IH (if f x < f y then y else x)
    have hdef : pyMax f x (y :: ys) = pyMax f (if f x < f y then y else x) ys := rfl
    by_cases hxy : f x < f y
    · rw [if_pos hxy] at heq hmax hstrict hdef
      refine ⟨x :: l₁, l₂, ?_, ?_, ?_⟩
      · rw [hdef, List.cons_append, ← heq]
      · intro z hz
        rw [hdef]
        rcases List.mem_cons.mp hz with rfl | hz2
        · exact le_of_lt (lt_of_lt_of_le hxy (hmax y (List.mem_cons_self y ys)))
        · exact hmax z hz2
      · intro z hz
        rw [hdef]
        rcases List.mem_cons.mp hz with rfl | hz2
        · exact lt_of_lt_of_le hxy (hmax y (List.mem_cons_self y ys))
        · exact hstrict z hz2
    · have hyx : f y ≤ f x := le_of_not_lt hxy
      rw [if_neg hxy] at heq hmax hstrict hdef
      cases l₁ with
      | nil =>
        rw [List.nil_append] at heq
        have hM : x = pyMax f x ys := List.head_eq_of_cons_eq heq
        refine ⟨[], y :: ys, ?_, ?_, by simp⟩
        · rw [hdef, List.nil_append, ← hM]
        · intro z hz
          rw [hdef]
          rcases List.mem_cons.mp hz with rfl | hz2
          · exact hmax z (List.mem_cons_self z ys)
          · rcases List.mem_cons.mp hz2 with rfl | hz3
            · exact le_trans hyx (hmax x (List.mem_cons_self x ys))
            · exact hmax z (List.mem_cons_of_mem x hz3)
      | cons x0 l₁t =>
        have heq2 : x = x0 ∧ ys = l₁t ++ pyMax f x ys :: l₂ := by
          simpa using heq
        obtain ⟨hx0, hys⟩ := heq2
        refine ⟨x :: y :: l₁t, l₂, ?_, ?_, ?_⟩
        · rw [hdef, List.cons_append, List.cons_append, ← hys]
        · intro z hz
          rw [hdef]
          rcases List.mem_cons.mp hz with rfl | hz2
          · exact hmax z (List.mem_cons_self z ys)
          · rcases List.mem_cons.mp hz2 with rfl | hz3
            · exact le_trans hyx (hmax x (List.mem_cons_self x ys))
            · exact hmax z (List.mem_cons_of_mem x hz3)
        · intro z hz
          rw [hdef]
          have hxmem : x ∈ x0 :: l₁t := by
            rw [← hx0]; exact List.mem_cons_self x l₁t
          rcases List.mem_cons.mp hz with rfl | hz2
          · exact hstrict z hxmem
          · rcases List.mem_cons.mp hz2 with rfl | hz3
            · exact lt_of_le_of_lt hyx (hstrict x hxmem)
            · exact hstrict z (List.mem_cons_of_mem x0 hz3)

/-- C4: when the exact lookup is empty and the fuzzy lookup returns a
non-empty candidate list, `EntityResolver.resolve_mention` returns the id
of the candidate of maximal similarity score, and on ties the earliest such
candidate in the list: the returned candidate splits the list so that every
candidate before it scores strictly lower and no candidate scores higher
(confidence of the prediction plays no role — the choice is a function of
the candidate list and the similarity scores alone). -/
theorem resolve_mention_fuzzy_first_max (m : GlobalEntityMap) (s : String)
    (et : Option String) (c : GlobalEntity) (cs : List GlobalEntity)
    (h1 : pyStrip s ≠ "")
    (h2 : m.find_entity_by_mention (pyStrip s) et false = [])
    (h3 : m.find_entity_by_mention (pyStrip s) et true = c :: cs) :
    ∃ best l₁ l₂,
      EntityResolver.resolve_mention ⟨some m⟩ s et = some best.id
      ∧ c :: cs = l₁ ++ best :: l₂
      ∧ (∀ y ∈ c :: cs, EntityResolver.similarity_score (pyStrip s) y ≤
          EntityResolver.similarity_score (pyStrip s) best)
      ∧ ∀ y ∈ l₁, EntityResolver.similarity_score (pyStrip s) y <
          EntityResolver.similarity_score (pyStrip s) best := by
  have hres : EntityResolver.resolve_mention ⟨some m⟩ s et =
      some (pyMax (fun x => EntityResolver.similarity_score (pyStrip s) x) c cs).id := by
    simp [EntityResolver.resolve_mention, h1, h2, h3]
  obtain ⟨l₁, l₂, heq, hmax, hstrict⟩ :=
    pyMax_decomp (fun x => EntityResolver.similarity_score (pyStrip s) x) cs c
  exact ⟨pyMax (fun x => EntityResolver.similarity_score (pyStrip s) x) c cs,
    l₁, l₂, hres, heq, hmax, hstrict⟩

/-- C4 witness: the fuzzy argmax property instantiated on a concrete
two-candidate fuzzy lookup. -/
theorem resolve_mention_fuzzy_first_max_witness :
    ∃ best l₁ l₂,
      EntityResolver.resolve_mention ⟨some mapFuzzy⟩ "gene" none = some best.id
      ∧ entOne :: [entTwo] = l₁ ++ best :: l₂
      ∧ (∀ y ∈ entOne :: [entTwo], EntityResolver.similarity_score (pyStrip "gene") y ≤
          EntityResolver.similarity_score (pyStrip "gene") best)
      ∧ ∀ y ∈ l₁, EntityResolver.similarity_score (pyStrip "gene") y <
          EntityResolver.similarity_score (pyStrip "gene") best :=
  resolve_mention_fuzzy_first_max mapFuzzy "gene" none entOne [entTwo]
    (by decide) rfl rfl

/-- C8: `EntityResolver.resolve_relations` is total (a Lean function — no
input raises), resolves the head and tail of each relation independently
and unconditionally, returns a list of the same length, and every input
relation survives in the output — carrying whatever each endpoint
resolution produced, so a failed endpoint leaves a null (`none`) id on that
side while the relation is kept. -/
theorem resolve_relations_total (resolver : EntityResolver)
    (relations : List ParsedRelation) :
    (EntityResolver.resolve_relations resolver relations).length = relations.length
    ∧ ∀ relation ∈ relations,
        { relation with
          head_id := EntityResolver.resolve_mention resolver relation.head_mention none,
          tail_id := EntityResolver.resolve_mention resolver relation.tail_mention none } ∈
          EntityResolver.resolve_relations resolver relations := by
  constructor
  · exact List.length_map relations _
  · intro relation hmem
    exact List.mem_map_of_mem _ hmem

/-- C9: `EntityResolver.resolve_relations` writes only the `head_id` and
`tail_id` fields: the output is exactly the input list in order, each
element equal to the corresponding input relation with only its ids
replaced, so `head_mention`, `tail_mention`, `relation_type` and
`confidence` are unchanged at every position. -/
theorem resolve_relations_frame (resolver : EntityResolver)
    (relations : List ParsedRelation) :
    (EntityResolver.resolve_relations resolver relations).length = relations.length
    ∧ ∀ i (h1 : i < relations.length)
        (h2 : i < (EntityResolver.resolve_relations resolver relations).length),
        (EntityResolver.resolve_relations resolver relations).get ⟨i, h2⟩ =
          { relations.get ⟨i, h1⟩ with
            head_id := EntityResolver.resolve_mention resolver
              (relations.get ⟨i, h1⟩).head_mention none,
            tail_id := EntityResolver.resolve_mention resolver
              (relations.get ⟨i, h1⟩).tail_mention none }
        ∧ ((EntityResolver.resolve_relations resolver relations).get ⟨i, h2⟩).head_mention =
            (relations.get ⟨i, h1⟩).head_mention
        ∧ ((EntityResolver.resolve_relations resolver relations).get ⟨i, h2⟩).tail_mention =
            (relations.get ⟨i, h1⟩).tail_mention
        ∧ ((EntityResolver.resolve_relations resolver relations).get ⟨i, h2⟩).relation_type =
            (relations.get ⟨i, h1⟩).relation_type
        ∧ ((EntityResolver.resolve_relations resolver relations).get ⟨i, h2⟩).confidence =
            (relations.get ⟨i, h1⟩).confidence := by
  constructor
  · exact List.length_map relations _
  · intro i h1 h2
    have hget : (EntityResolver.resolve_relations resolver relations).get ⟨i, h2⟩ =
        { relations.get ⟨i, h1⟩ with
          head_id := EntityResolver.resolve_mention resolver
            (relations.get ⟨i, h1⟩).head_mention none,
          tail_id := EntityResolver.resolve_mention resolver
            (relations.get ⟨i, h1⟩).tail_mention none } := by
      simp [EntityResolver.resolve_relations, List.get_eq_getElem, List.getElem_map,
        EntityResolver.resolve_relation]
    exact ⟨hget, by rw [hget], by rw [hget], by rw [hget], by rw [hget]⟩

/-- The common prefix is no longer than the first list. -/
lemma commonPrefixLen_le_left : ∀ a b : List Char, commonPrefixLen a b ≤ a.length := by
  intro a
  induction a with
  | nil => intro b; cases b <;> simp [commonPrefixLen]
  | cons x xs IH =>
    intro b
    cases b with
    | nil => simp [commonPrefixLen]
    | cons y ys =>
      simp only [commonPrefixLen, List.length_cons]
      split
      · exact Nat.succ_le_succ (IH ys)
      · exact Nat.zero_le _

/-- The common prefix is no longer than the second list. -/
lemma commonPrefixLen_le_right : ∀ a b : List Char, commonPrefixLen a b ≤ b.length := by
  intro a
  induction a with
  | nil => intro b; cases b <;> simp [commonPrefixLen]
  | cons x xs IH =>
    intro b
    cases b with
    | nil => simp [commonPrefixLen]
    | cons y ys =>
      simp only [commonPrefixLen, List.length_cons]
      split
      · exact Nat.succ_le_succ (IH ys)
      · exact Nat.zero_le _

/-- A predicate preserved by every fold step holds of the fold. -/
lemma foldl_preserve {α β : Type*} (P : α → Prop) (f : α → β → α)
    (hf : ∀ acc x, P acc → P (f acc x)) :
    ∀ (l : List β) (init : α), P init → P (l.foldl f init) := by
  intro l
  induction l with
  | nil => intro init h; simpa using h
  | cons x xs IH =>
    intro init h
    rw [List.foldl_cons]
    exact IH (f init x) (hf init x h)

/-- The block found by `longestCommon` lies inside both lists. -/
lemma longestCommon_bound (a b : List Char) :
    (longestCommon a b).1 + (longestCommon a b).2.2 ≤ a.length
    ∧ (longestCommon a b).2.1 + (longestCommon a b).2.2 ≤ b.length := by
  unfold longestCommon
  apply foldl_preserve
    (fun best : ℕ × ℕ × ℕ => best.1 + best.2.2 ≤ a.length ∧ best.2.1 + best.2.2 ≤ b.length)
  · intro acc i hacc
    apply foldl_preserve
      (fun best : ℕ × ℕ × ℕ => best.1 + best.2.2 ≤ a.length ∧ best.2.1 + best.2.2 ≤ b.length)
    · intro acc2 j hacc2
      dsimp only
      split
      · rename_i hlt
        have hka : commonPrefixLen (a.drop i) (b.drop j) ≤ a.length - i := by
          have := commonPrefixLen_le_left (a.drop i) (b.drop j)
          simpa using this
        have hkb : commonPrefixLen (a.drop i) (b.drop j) ≤ b.length - j := by
          have := commonPrefixLen_le_right (a.drop i) (b.drop j)
          simpa using this
        have hk1 : 1 ≤ commonPrefixLen (a.drop i) (b.drop j) := by omega
        show i + commonPrefixLen (a.drop i) (b.drop j) ≤ a.length
          ∧ j + commonPrefixLen (a.drop i) (b.drop j) ≤ b.length
        exact ⟨by omega, by omega⟩
      · exact hacc2
    · exact hacc
  · exact ⟨Nat.zero_le _, Nat.zero_le _⟩

/-- The matched total never exceeds either list's length, whatever the fuel. -/
lemma matchTotal_le (fuel : ℕ) : ∀ a b : List Char,
    matchTotal fuel a b ≤ a.length ∧ matchTotal fuel a b ≤ b.length := by
  induction fuel with
  | zero => intro a b; simp [matchTotal]
  | succ n IH =>
    intro a b
    have hb := longestCommon_bound a b
    simp only [matchTotal]
    split
    · simp
    · obtain ⟨h1a, h1b⟩ := IH (a.take (longestCommon a b).1) (b.take (longestCommon a b).2.1)
      obtain ⟨h2a, h2b⟩ := IH (a.drop ((longestCommon a b).1 + (longestCommon a b).2.2))
        (b.drop ((longestCommon a b).2.1 + (longestCommon a b).2.2))
      simp only [List.length_take, List.length_drop] at h1a h1b h2a h2b
      constructor
      · omega
      · omega

/-- The `SequenceMatcher` ratio always lies in `[0, 1]`. -/
lemma ratio_mem_unit (a b : List Char) : 0 ≤ ratio a b ∧ ratio a b ≤ 1 := by
  unfold ratio
  split
  · exact ⟨zero_le_one, le_refl 1⟩
  · rename_i h
    have hpos : (0 : ℚ) < ((a.length + b.length : ℕ) : ℚ) := by
      have : 0 < a.length + b.length := Nat.pos_of_ne_zero h
      exact_mod_cast this
    obtain ⟨hma, hmb⟩ := matchTotal_le (a.length + b.length) a b
    constructor
    · apply div_nonneg _ hpos.le
      positivity
    · rw [div_le_one hpos]
      have : 2 * matchTotal (a.length + b.length) a b ≤ a.length + b.length := by omega
      calc 2 * (matchTotal (a.length + b.length) a b : ℚ)
          = ((2 * matchTotal (a.length + b.length) a b : ℕ) : ℚ) := by push_cast; ring
        _ ≤ ((a.length + b.length : ℕ) : ℚ) := by exact_mod_cast this

/-- Folding `max` from a seed in `[0, 1]` over values in `[0, 1]` stays in
`[0, 1]`. -/
lemma foldl_max_mem_unit (l : List ℚ) : ∀ c : ℚ, 0 ≤ c → c ≤ 1 →
    (∀ y ∈ l, 0 ≤ y ∧ y ≤ 1) → 0 ≤ l.foldl max c ∧ l.foldl max c ≤ 1 := by
  induction l with
  | nil => intro c h0 h1 _; simpa using ⟨h0, h1⟩
  | cons y ys IH =>
    intro c h0 h1 hl
    rw [List.foldl_cons]
    have hy := hl y (List.mem_cons_self y ys)
    exact IH (max c y) (le_trans h0 (le_max_left c y)) (max_le h1 hy.2)
      fun z hz => hl z (List.mem_cons_of_mem y hz)

/-- For a non-negative seed and non-negative values, Python's
`max(c :: l)` (a left fold) equals `max c` of the `0`-seeded right fold. -/
lemma foldl_max_eq_max_foldr (l : List ℚ) : ∀ c : ℚ, 0 ≤ c →
    (∀ y ∈ l, 0 ≤ y) → l.foldl max c = max c (l.foldr max 0) := by
  induction l with
  | nil =>
    intro c hc _
    simp [max_eq_left hc]
  | cons y ys IH =>
    intro c hc hl
    rw [List.foldl_cons, List.foldr_cons]
    rw [IH (max c y) (le_trans hc (le_max_left c y))
      fun z hz => hl z (List.mem_cons_of_mem y hz)]
    exact max_assoc c y (ys.foldr max 0)

/-- C5: the resolver's similarity score equals the maximum of the ratio
against the canonical name (`0` when it is absent or empty) and the
`0`-seeded maximum of the ratios against the first five common mentions,
and it always lies in `[0, 1]`. -/
theorem similarity_score_spec (mention_text : String) (entity : GlobalEntity) :
    EntityResolver.similarity_score mention_text entity =
      max
        (match entity.canonical_name with
         | some cn =>
            if cn = "" then 0
            else ratio (pyStrip (pyLower mention_text)).data (pyLower cn).data
         | none => 0)
        (((entity.common_mentions.take 5).map fun cm =>
            ratio (pyStrip (pyLower mention_text)).data (pyLower cm).data).foldr max 0)
    ∧ 0 ≤ EntityResolver.similarity_score mention_text entity
    ∧ EntityResolver.similarity_score mention_text entity ≤ 1 := by
  have hcanon :
      0 ≤ (match entity.canonical_name with
        | some cn =>
            if cn = "" then 0
            else ratio (pyStrip (pyLower mention_text)).data (pyLower cn).data
        | none => (0 : ℚ))
      ∧ (match entity.canonical_name with
        | some cn =>
            if cn = "" then 0
            else ratio (pyStrip (pyLower mention_text)).data (pyLower cn).data
        | none => (0 : ℚ)) ≤ 1 := by
    rcases entity.canonical_name with _ | cn
    · exact ⟨le_refl 0, zero_le_one⟩
    · dsimp only
      split
      · exact ⟨le_refl 0, zero_le_one⟩
      · exact ratio_mem_unit _ _
  have heq : EntityResolver.similarity_score mention_text entity =
      max
        (match entity.canonical_name with
         | some cn =>
            if cn = "" then 0
            else ratio (pyStrip (pyLower mention_text)).data (pyLower cn).data
         | none => 0)
        (((entity.common_mentions.take 5).map fun cm =>
            ratio (pyStrip (pyLower mention_text)).data (pyLower cm).data).foldr max 0) := by
    unfold EntityResolver.similarity_score
    rcases hL : (entity.common_mentions.take 5).map fun cm =>
        ratio (pyStrip (pyLower mention_text)).data (pyLower cm).data with _ | ⟨c, cs⟩
    · simp [hL]
    · simp only [hL]
      have hc : 0 ≤ c := by
        have : c ∈ c :: cs := List.mem_cons_self c cs
        rw [← hL] at this
        obtain ⟨cm, _, hcm⟩ := List.mem_map.mp this
        rw [← hcm]
        exact (ratio_mem_unit _ _).1
      have hcs : ∀ y ∈ cs, 0 ≤ y := by
        intro y hy
        have : y ∈ c :: cs := List.mem_cons_of_mem c hy
        rw [← hL] at this
        obtain ⟨cm, _, hcm⟩ := List.mem_map.mp this
        rw [← hcm]
        exact (ratio_mem_unit _ _).1
      rw [foldl_max_eq_max_foldr cs c hc hcs]
      rw [List.foldr_cons]
  have hfold : 0 ≤ ((entity.common_mentions.take 5).map fun cm =>
        ratio (pyStrip (pyLower mention_text)).data (pyLower cm).data).foldr max 0
      ∧ ((entity.common_mentions.take 5).map fun cm =>
        ratio (pyStrip (pyLower mention_text)).data (pyLower cm).data).foldr max 0 ≤ 1 := by
    induction (entity.common_mentions.take 5) with
    | nil => exact ⟨le_refl 0, zero_le_one⟩
    | cons cm cms IH =>
      rw [List.map_cons, List.foldr_cons]
      obtain ⟨h1, h2⟩ := ratio_mem_unit (pyStrip (pyLower mention_text)).data (pyLower cm).data
      exact ⟨le_trans IH.1 (le_max_right _ _), max_le h2 IH.2⟩
  refine ⟨heq, ?_, ?_⟩
  · rw [heq]
    exact le_trans hcanon.1 (le_max_left _ _)
  · rw [heq]
    exact max_le hcanon.2 hfold.2

/-- A relation the JSON loop keeps has passed the non-empty check on all
three stripped fields. -/
lemma buildRelation_ok_some (d : JValue) (r : ParsedRelation)
    (h : ResponseParser.buildRelation d = Except.ok (some r)) :
    r.head_mention ≠ "" ∧ r.tail_mention ≠ "" ∧ r.relation_type ≠ "" := by
  unfold ResponseParser.buildRelation at h
  repeat split at h
  all_goals simp at h
  all_goals
    obtain ⟨hcond2, hr⟩ := h
    rw [← hr]
    exact hcond2

/-- Every relation the JSON loop returns has non-empty stripped fields. -/
lemma relationLoop_nonempty : ∀ ds : List JValue,
    ∀ rel ∈ (ResponseParser.relationLoop ds).1,
      rel.head_mention ≠ "" ∧ rel.tail_mention ≠ "" ∧ rel.relation_type ≠ "" := by
  intro ds
  induction ds with
  | nil => intro rel h; simp [ResponseParser.relationLoop] at h
  | cons d ds IH =>
    intro rel h
    rw [ResponseParser.relationLoop] at h
    rcases hb : ResponseParser.buildRelation d with e | o
    · rw [hb] at h
      simp at h
    · rw [hb] at h
      cases o with
      | none => exact IH rel h
      | some r2 =>
        simp only at h
        rcases List.mem_cons.mp h with rfl | h2
        · exact buildRelation_ok_some d rel hb
        · exact IH rel h2

/-- Every relation the JSON branch of the parser returns has non-empty
stripped fields. -/
lemma processJson_nonempty (d : JValue) :
    ∀ rel ∈ (ResponseParser.processJson d).1,
      rel.head_mention ≠ "" ∧ rel.tail_mention ≠ "" ∧ rel.relation_type ≠ "" := by
  intro rel h
  unfold ResponseParser.processJson at h
  rcases hpi : pyIter (ResponseParser.relationsData d) with _ | items
  · rw [hpi] at h
    simp at h
  · rw [hpi] at h
    exact relationLoop_nonempty items rel h

/-- Resolution keeps the mention and type fields of each output relation
equal to those of some input relation. -/
lemma resolve_relations_mention_fields (resolver : EntityResolver)
    (rels : List ParsedRelation) :
    ∀ rel2 ∈ EntityResolver.resolve_relations resolver rels, ∃ rel ∈ rels,
      rel2.head_mention = rel.head_mention ∧ rel2.tail_mention = rel.tail_mention
      ∧ rel2.relation_type = rel.relation_type := by
  intro rel2 h
  obtain ⟨rel, hmem, heq⟩ := List.mem_map.mp h
  exact ⟨rel, hmem, by rw [← heq], by rw [← heq], by rw [← heq]⟩

/-- C2 counterexample: on the response `" -> b: c"` (which holds no JSON, so
the text-format fallback runs) the parser returns a relation whose
`head_mention` is empty — the regex capture group matched only whitespace
and `strip()` emptied it, and the fallback path has no non-empty filter. -/
theorem parse_text_fallback_empty_mention :
    ∃ rel ∈ ResponseParser.parse none none " -> b: c", rel.head_mention = "" := by
  decide

/-- C2 (amended): every relation produced through the JSON branch of
`ResponseParser.parse` has a non-empty `head_mention`, `tail_mention` and
`relation_type` — dict entries with a missing or blank field are dropped
before they can reach the matcher; the guarantee does not extend to the
text-format fallback branch. -/
theorem parse_json_relations_nonempty (entity_resolver : Option EntityResolver)
    (d : JValue) (response : String) :
    ∀ rel ∈ ResponseParser.parse entity_resolver (some d) response,
      rel.head_mention ≠ "" ∧ rel.tail_mention ≠ "" ∧ rel.relation_type ≠ "" := by
  intro rel h
  unfold ResponseParser.parse at h
  cases entity_resolver with
  | none => exact processJson_nonempty d rel (by simpa using h)
  | some r =>
    simp only at h
    split at h
    · exact processJson_nonempty d rel h
    · obtain ⟨rel0, hmem, hf1, hf2, hf3⟩ := resolve_relations_mention_fields r _ rel h
      rw [hf1, hf2, hf3]
      exact processJson_nonempty d rel0 hmem

/-- A concrete well-formed JSON relation record. -/
def relObj : JValue :=
  JValue.obj [("head_mention", JValue.str "a"), ("tail_mention", JValue.str "b"),
    ("relation_type", JValue.str "c")]

/-- C2 witness: the non-empty-field guarantee instantiated on a concrete
parsed JSON relation. -/
theorem parse_json_relations_nonempty_witness :
    (⟨"a", "b", "c", none, none, none⟩ : ParsedRelation) ∈
      ResponseParser.parse none (some relObj) ""
    ∧ (⟨"a", "b", "c", none, none, none⟩ : ParsedRelation).head_mention ≠ ""
    ∧ (⟨"a", "b", "c", none, none, none⟩ : ParsedRelation).tail_mention ≠ ""
    ∧ (⟨"a", "b", "c", none, none, none⟩ : ParsedRelation).relation_type ≠ "" :=
  ⟨by decide,
    parse_json_relations_nonempty none relObj ""
      ⟨"a", "b", "c", none, none, none⟩ (by decide)⟩
